import Mathlib

/-!
Verification of the matrix-rain GPU simulation and host-side render graph.

The definitions below are a shallow embedding of the repository's source:

* the per-column compute shader (the complete shader of `part_013`:
  kinematics, LCG respawn, energy model, instance emission, and the
  out-of-range thread guard);
* `compileRenderGraph` from `part_010` (resource-hazard edges plus Kahn's
  algorithm with a FIFO queue);
* the `ResourceManager` ownership scope of `part_014`;
* the glyph-atlas column-count computation of
  `src/engine/render/resources.ts` and of `part_012`.

Machine numerics: `u32` values are `Nat` with explicit `% 2^32` where the
shader's arithmetic wraps; `f32` values are modelled as `ℚ` (every operation
the verified claims touch — add, mul, min, max, clamp, floor, compare, and
division by powers of two — is exact in `f32` on the ranges involved).  The
transcendental `exp` of the shader is an abstract parameter `expf`: the
theorems that mention it hold for every function, which is exactly the
strength needed since the shader clamps after the exponential.
-/

namespace MatrixRain

/-- The `u32` modulus: all shader integer arithmetic wraps at `2^32`. -/
def U32 : ℕ := 4294967296

/-- LCG multiplier, `const LCG_A: u32 = 1664525u`. -/
def LCG_A : ℕ := 1664525

/-- LCG increment, `const LCG_C: u32 = 1013904223u`. -/
def LCG_C : ℕ := 1013904223

/-- One LCG step with 32-bit wraparound: `seed = seed * LCG_A + LCG_C`. -/
def lcgStep (s : ℕ) : ℕ := (s * LCG_A + LCG_C) % U32

/-- `const LENGTH_MIN: u32 = 3u`. -/
def LENGTH_MIN : ℕ := 3

/-- `const LENGTH_RANGE: f32 = 20.0`. -/
def LENGTH_RANGE : ℚ := 20

/-- `const SPEED_MIN: f32 = 2.0`. -/
def SPEED_MIN : ℚ := 2

/-- `const SPEED_RANGE: f32 = 16.0`. -/
def SPEED_RANGE : ℚ := 16

/-- `const ENERGY_BASE_MIN: f32 = 4.0`. -/
def ENERGY_BASE_MIN : ℚ := 4

/-- `const ENERGY_BASE_MAX: f32 = 8.0`. -/
def ENERGY_BASE_MAX : ℚ := 8

/-- `const ENERGY_PER_CELL: f32 = 1.25`. -/
def ENERGY_PER_CELL : ℚ := 5 / 4

/-- `const BASE_HALF_LIFE: f32 = 8.0`. -/
def BASE_HALF_LIFE : ℚ := 8

/-- `const MIN_HALF_LIFE: f32 = 1.0`. -/
def MIN_HALF_LIFE : ℚ := 1

/-- `const ENERGY_SPEED_FACTOR: f32 = 0.25`. -/
def ENERGY_SPEED_FACTOR : ℚ := 1 / 4

/-- `const ENERGY_LENGTH_FACTOR: f32 = 0.05`. -/
def ENERGY_LENGTH_FACTOR : ℚ := 1 / 20

/-- `const TRAIL_DECAY: f32 = 3.2`. -/
def TRAIL_DECAY : ℚ := 16 / 5

/-- `const HEAD_BRIGHTNESS_BOOST: f32 = 1.15`. -/
def HEAD_BRIGHTNESS_BOOST : ℚ := 23 / 20

/-- The shader's `LN2` literal `0.69314718056`. -/
def LN2 : ℚ := 69314718056 / 100000000000

/-- The `[0,1)` value of one 16-bit slice of an LCG state:
`f32(s & 0xffffu) / 65536.0`. -/
def u16slice (x : ℕ) : ℚ := ((x % 65536 : ℕ) : ℚ) / 65536

/-- `fn approxNormal01(seed: u32) -> f32`: four chained LCG steps, the low
16 bits of each normalised to `[0,1)` and averaged. -/
def approxNormal01 (seed : ℕ) : ℚ :=
  ((((0 : ℚ) + u16slice (lcgStep seed))
      + u16slice (lcgStep (lcgStep seed)))
      + u16slice (lcgStep (lcgStep (lcgStep seed)))
      + u16slice (lcgStep (lcgStep (lcgStep (lcgStep seed))))) * (1 / 4)

/-- `fn hashU32(x: u32) -> u32` (PCG-style stateless hash). -/
def hashU32 (x : ℕ) : ℕ :=
  let v := x % U32
  let v := Nat.xor v (v / 65536)
  let v := (v * 0x7feb352d) % U32
  let v := Nat.xor v (v / 32768)
  let v := (v * 0x846ca68b) % U32
  Nat.xor v (v / 65536)

/-- `fn glyphHash(seed: u32, t: u32) -> u32 = hashU32(seed ^ (t + 1u))`. -/
def glyphHash (seed t : ℕ) : ℕ := hashU32 (Nat.xor seed ((t + 1) % U32))

/-- The `SimulationUniforms` uniform block of the compute shader. -/
structure SimulationUniforms where
  dt : ℚ
  rows : ℕ
  cols : ℕ
  glyphCount : ℕ
  cellWidth : ℚ
  cellHeight : ℚ
  maxTrail : ℕ
deriving DecidableEq

/-- One column's persistent simulation state (`head`, `speed`, `length`,
`seed`, `energy` — the struct-of-arrays record of one column). -/
structure ColumnState where
  head : ℚ
  speed : ℚ
  length : ℕ
  seed : ℕ
  energy : ℚ
deriving DecidableEq

/-- WGSL `clamp(x, lo, hi) = min(max(x, lo), hi)`. -/
def wgslClamp (x lo hi : ℚ) : ℚ := min (max x lo) hi

/-- The respawn branch of the shader (lines 160-182 of the `part_013`
shader), applied to the already-advanced head.  `u32(f32)` conversion of the
non-negative product `spawnIntensity * LENGTH_RANGE` is truncation, i.e.
`Int.toNat ∘ Int.floor`. -/
def respawnStep (sim : SimulationUniforms) (c : ColumnState) (headAdv : ℚ) :
    ColumnState :=
  let seed := lcgStep c.seed
  let spawnIntensity := approxNormal01 seed
  let length := LENGTH_MIN + (Int.toNat ⌊spawnIntensity * LENGTH_RANGE⌋)
  let speed := SPEED_MIN + spawnIntensity * SPEED_RANGE
  let energyBase :=
    ENERGY_BASE_MIN + (ENERGY_BASE_MAX - ENERGY_BASE_MIN) * spawnIntensity
  let energyMax := (length : ℚ) * ENERGY_PER_CELL
  { head := headAdv - (sim.rows : ℚ)
    speed := speed
    length := length
    seed := seed
    energy := min energyBase energyMax }

/-- The falling (no-respawn) branch of the shader (lines 183-197): the
energy decays by `expf (-(LN2 / halfLife) * dt)` and is clamped into
`[0, length * ENERGY_PER_CELL]`; head keeps the advanced value. -/
def fallingStep (expf : ℚ → ℚ) (sim : SimulationUniforms) (c : ColumnState)
    (headAdv : ℚ) : ColumnState :=
  let halfLife :=
    max MIN_HALF_LIFE
      (BASE_HALF_LIFE / (1 + ENERGY_SPEED_FACTOR * c.speed)
        / (1 + ENERGY_LENGTH_FACTOR * (c.length : ℚ)))
  let lam := LN2 / halfLife
  let energy := c.energy * expf (-(lam * sim.dt))
  let energyMax := (c.length : ℚ) * ENERGY_PER_CELL
  { c with head := headAdv, energy := wgslClamp energy 0 energyMax }

/-- One simulation tick for one column: advance the head by `speed * dt`,
then take the respawn branch when `head >= rows` and the falling branch
otherwise (lines 153-197 of the shader). -/
def stepColumn (expf : ℚ → ℚ) (sim : SimulationUniforms) (c : ColumnState) :
    ColumnState :=
  if (sim.rows : ℚ) ≤ c.head + c.speed * sim.dt then
    respawnStep sim c (c.head + c.speed * sim.dt)
  else fallingStep expf sim c (c.head + c.speed * sim.dt)

/-- One 48-byte instance record (`InstanceData` in the shader): pixel offset,
cell size, atlas UV rectangle and brightness. -/
structure InstanceData where
  offsetX : ℚ
  offsetY : ℚ
  cellW : ℚ
  cellH : ℚ
  uvRect : ℚ × ℚ × ℚ × ℚ
  brightness : ℚ
deriving DecidableEq

/-- The storage buffers bound to the compute pass: the five per-column state
arrays plus the instance output array, all modelled as total maps from the
index. -/
structure SimState where
  seeds : ℕ → ℕ
  heads : ℕ → ℚ
  speeds : ℕ → ℚ
  lengths : ℕ → ℕ
  energies : ℕ → ℚ
  instances : ℕ → InstanceData

/-- Point update of a buffer, the meaning of a single storage write. -/
def updFn {α : Type} (f : ℕ → α) (i : ℕ) (v : α) : ℕ → α :=
  fun j => if j = i then v else f j

/-- Trail row of sample `t`: `i32(floor(head)) - i32(t)`, one conditional
wrap by `rows` when negative (lines 212-215 of the shader). -/
def rowPosOf (head : ℚ) (rows t : ℕ) : ℤ :=
  let rp : ℤ := ⌊head⌋ - (t : ℤ)
  if rp < 0 then rp + (rows : ℤ) else rp

/-- Brightness of trail sample `t` (lines 229-238): positional falloff
`energy * exp(-TRAIL_DECAY * x)` with `x = t / max(1, length-1)` selected to
`0` when `length <= 1`, boosted for the head sample. -/
def brightnessAt (expf : ℚ → ℚ) (length : ℕ) (energy : ℚ) (t : ℕ) : ℚ :=
  let x : ℚ :=
    if 1 < length then (t : ℚ) / max 1 ((length - 1 : ℕ) : ℚ) else 0
  let b := energy * expf (-(TRAIL_DECAY * x))
  if t = 0 then b * HEAD_BRIGHTNESS_BOOST else b

/-- The instance record the shader writes for column `columnIdx`, trail
sample `t`, given the column's post-update state (lines 209-240). -/
def emitInstance (expf : ℚ → ℚ) (sim : SimulationUniforms)
    (glyphUVs : ℕ → ℚ × ℚ × ℚ × ℚ) (columnIdx : ℕ) (c : ColumnState)
    (t : ℕ) : InstanceData :=
  { offsetX := (columnIdx : ℚ) * sim.cellWidth
    offsetY := ((rowPosOf c.head sim.rows t : ℤ) : ℚ) * sim.cellHeight
    cellW := sim.cellWidth
    cellH := sim.cellHeight
    uvRect := glyphUVs (glyphHash c.seed t % sim.glyphCount)
    brightness := brightnessAt expf c.length c.energy t }

/-- The emission loop: write instance slots `base + t` for
`t = 0 .. maxLen - 1` in ascending order. -/
def emitLoop (em : ℕ → InstanceData) (base : ℕ) :
    ℕ → (ℕ → InstanceData) → (ℕ → InstanceData)
  | 0, inst => inst
  | n + 1, inst => updFn (emitLoop em base n inst) (base + n) (em n)

/-- `fn main(@builtin(global_invocation_id) gid)`: the whole body of one
compute invocation.  Out-of-range invocations (`gid >= sim.cols`) return
immediately, touching no buffer; in-range invocations step their column's
state and emit `min(length, maxTrail)` instances at slots
`gid * maxTrail + t`. -/
def threadMain (expf : ℚ → ℚ) (sim : SimulationUniforms)
    (glyphUVs : ℕ → ℚ × ℚ × ℚ × ℚ) (gid : ℕ) (s : SimState) : SimState :=
  if sim.cols ≤ gid then s
  else
    let c : ColumnState :=
      ⟨s.heads gid, s.speeds gid, s.lengths gid, s.seeds gid, s.energies gid⟩
    let c2 := stepColumn expf sim c
    let maxLen := min c2.length sim.maxTrail
    { seeds := updFn s.seeds gid c2.seed
      heads := updFn s.heads gid c2.head
      speeds := updFn s.speeds gid c2.speed
      lengths := updFn s.lengths gid c2.length
      energies := updFn s.energies gid c2.energy
      instances :=
        emitLoop (emitInstance expf sim glyphUVs gid c2)
          (gid * sim.maxTrail) maxLen s.instances }

/-- A dispatch of `n` invocations `gid = 0 .. n-1`.  The shader's threads
touch disjoint data, so the sequential composition is their joint effect;
`n` is `64 * ceil(cols / 64)` for a dispatch of `ceil(cols / 64)`
workgroups of size 64. -/
def dispatchThreads (expf : ℚ → ℚ) (sim : SimulationUniforms)
    (glyphUVs : ℕ → ℚ × ℚ × ℚ × ℚ) (n : ℕ) (s : SimState) : SimState :=
  (List.range n).foldl (fun acc gid => threadMain expf sim glyphUVs gid acc) s

/-- A pass declaration of the render graph builder: a name plus the declared
resource reads and writes (resources identified by their unique handle
name, handles being created once per name). -/
structure RenderPassNode where
  name : String
  reads : List String
  writes : List String
deriving DecidableEq

/-- The placeholder pass used for out-of-range list indexing (never reached
on the indices the compiler touches). -/
def noPass : RenderPassNode := ⟨"", [], []⟩

/-- The hazard test of `compileRenderGraph`: pass `a` writes a resource that
pass `b` reads or also writes. -/
def hazardb (a b : RenderPassNode) : Bool :=
  a.writes.any (fun r => b.reads.contains r)
    || a.writes.any (fun r => b.writes.contains r)

/-- Dependency edge from pass index `i` to pass index `j` in the pass list:
distinct in-range indices with a hazard. -/
def edgeb (passes : List RenderPassNode) (i j : ℕ) : Bool :=
  decide (i < passes.length) && decide (j < passes.length) && decide (i ≠ j)
    && hazardb (passes.getD i noPass) (passes.getD j noPass)

/-- Adjacency list of pass `i`, in pass-list order (the order the inner
loop of the edge construction inserts successors). -/
def adjOf (passes : List RenderPassNode) (i : ℕ) : List ℕ :=
  (List.range passes.length).filter (fun j => edgeb passes i j)

/-- Initial in-degree of pass `j`: the number of passes with an edge into
it. -/
def inDeg0 (passes : List RenderPassNode) (j : ℕ) : ℤ :=
  (((List.range passes.length).filter (fun i => edgeb passes i j)).length : ℤ)

/-- The body of the popped node's neighbor sweep: decrement the successor's
in-degree and enqueue it (at the back) when it reaches zero. -/
def kahnVisit (st : (ℕ → ℤ) × List ℕ) (nb : ℕ) : (ℕ → ℤ) × List ℕ :=
  let d := st.1 nb - 1
  (updFn st.1 nb d, if d = 0 then st.2 ++ [nb] else st.2)

/-- Kahn's loop: pop the queue front, sweep its successors with
`kahnVisit`, append the popped node to the order.  `fuel` bounds the number
of pops; each node is enqueued at most once, so `passes.length` pops always
suffice and the fuel never runs out before the queue empties. -/
def kahnLoop (adj : ℕ → List ℕ) :
    ℕ → (ℕ → ℤ) → List ℕ → List ℕ → List ℕ
  | 0, _, _, ordered => ordered
  | _ + 1, _, [], ordered => ordered
  | fuel + 1, inDeg, p :: rest, ordered =>
      let st := (adj p).foldl kahnVisit (inDeg, rest)
      kahnLoop adj fuel st.1 st.2 (ordered ++ [p])

/-- `compileRenderGraph` of `part_010`: build resource-hazard edges, run
Kahn's algorithm from the in-order list of zero-in-degree passes, and fail
with the cycle error when the produced order misses a pass. -/
def compileRenderGraph (passes : List RenderPassNode) :
    Except String (List RenderPassNode) :=
  let n := passes.length
  let queue0 := (List.range n).filter (fun i => inDeg0 passes i = 0)
  let ordered := kahnLoop (adjOf passes) n (inDeg0 passes) queue0 []
  if ordered.length = n then
    Except.ok (ordered.map (fun i => passes.getD i noPass))
  else Except.error "RG: cyclic dependency detected"

/-- A non-empty collection of pass indices each of which is the target of a
hazard edge from another member: the loop-carrying core of a dependency
cycle (any directed cycle's vertex set qualifies, and conversely such a set
always contains a directed cycle). -/
def CycleSet (passes : List RenderPassNode) (s : List ℕ) : Prop :=
  s ≠ [] ∧ ∀ v ∈ s, ∃ u ∈ s, edgeb passes u v = true

/-- The loop invariant of Kahn's algorithm used for cycle detection:
popped-plus-queued nodes are distinct in-range pass indices, the running
in-degree of each node is its initial in-degree minus the edges from
already-popped nodes, every enqueued-or-popped node has run out of
in-degree, and no member of the blocked set `S` has ever been enqueued. -/
def KahnInv (passes : List RenderPassNode) (S : List ℕ) (inDeg : ℕ → ℤ)
    (queue ordered : List ℕ) : Prop :=
  (ordered ++ queue).Nodup ∧
    (∀ x ∈ ordered ++ queue, x < passes.length) ∧
    (∀ j, j < passes.length →
      inDeg j = inDeg0 passes j -
        ((ordered.filter (fun i => edgeb passes i j)).length : ℤ)) ∧
    (∀ x ∈ ordered ++ queue, inDeg x ≤ 0) ∧
    (∀ v ∈ S, v ∉ ordered ++ queue)

/-- The `ResourceManager` ownership scope of `part_014`: the list of
tracked objects requiring explicit `destroy()`, the list of all tracked
objects, and the `destroyed` flag.  Resources are identified by numeric
ids. -/
structure ResourceManager where
  destroyables : List ℕ
  tracked : List ℕ
  destroyed : Bool
deriving DecidableEq

/-- A freshly constructed scope. -/
def newResourceManager : ResourceManager := ⟨[], [], false⟩

/-- The error message of `assertAlive()`. -/
def deadScopeMsg : String :=
  "ResourceManager: cannot track resources after destroyAll()"

/-- `trackDestroyable(resource)`: `assertAlive()` then push onto both
collections, returning the resource. -/
def trackDestroyable (m : ResourceManager) (r : ℕ) :
    Except String (ResourceManager × ℕ) :=
  if m.destroyed then Except.error deadScopeMsg
  else
    Except.ok
      ({ m with
          destroyables := m.destroyables ++ [r]
          tracked := m.tracked ++ [r] }, r)

/-- `track(resource)`: `assertAlive()` then push onto `tracked` only. -/
def trackShared (m : ResourceManager) (r : ℕ) :
    Except String (ResourceManager × ℕ) :=
  if m.destroyed then Except.error deadScopeMsg
  else Except.ok ({ m with tracked := m.tracked ++ [r] }, r)

/-- `destroyAll()`: no-op when already destroyed; otherwise call
`destroy()` on every destroyable in order (the returned list is that call
sequence), clear both collections, and set the `destroyed` flag. -/
def destroyAll (m : ResourceManager) : List ℕ × ResourceManager :=
  if m.destroyed then ([], m)
  else (m.destroyables, ⟨[], [], true⟩)

/-- Integer ceiling square root: the exact value of
`Math.ceil(Math.sqrt(n))` on the atlas-sized inputs in play. -/
def ceilSqrt (n : ℕ) : ℕ :=
  if Nat.sqrt n * Nat.sqrt n = n then Nat.sqrt n else Nat.sqrt n + 1

/-- Column count of the glyph atlas grid in
`src/engine/render/resources.ts`: an explicit positive `cols` option wins,
otherwise `Math.floor(Math.sqrt(glyphs.length))`. -/
def glyphsPerRowResources (colsOpt : Option ℕ) (glyphCount : ℕ) : ℕ :=
  match colsOpt with
  | some c => if 0 < c then c else Nat.sqrt glyphCount
  | none => Nat.sqrt glyphCount

/-- Column count of the glyph atlas grid in the `part_012` variant of
`createGlyphAtlas`: an explicit positive `cols` option wins, otherwise
`Math.ceil(Math.sqrt(count))`. -/
def colsPart012 (colsOpt : Option ℕ) (glyphCount : ℕ) : ℕ :=
  match colsOpt with
  | some c => if 0 < c then c else ceilSqrt glyphCount
  | none => ceilSqrt glyphCount

/-- The respawned column state exactly as the specification words it:
`head ← head - rows` after the advance, `seed` advanced one LCG step,
`length ← lengthMin + floor(r * lengthRange)`,
`speed ← speedMin + r * speedRange`,
`energy ← min(energyBaseMin + (energyBaseMax - energyBaseMin) * r,
length * energyPerCell)`, with `r` derived from the new seed. -/
def specRespawnState (sim : SimulationUniforms) (c : ColumnState) :
    ColumnState :=
  let seedPost := lcgStep c.seed
  let r := approxNormal01 seedPost
  let lengthPost := LENGTH_MIN + (Int.toNat ⌊r * LENGTH_RANGE⌋)
  { head := c.head + c.speed * sim.dt - (sim.rows : ℚ)
    speed := SPEED_MIN + r * SPEED_RANGE
    length := lengthPost
    seed := seedPost
    energy :=
      min (ENERGY_BASE_MIN + (ENERGY_BASE_MAX - ENERGY_BASE_MIN) * r)
        ((lengthPost : ℚ) * ENERGY_PER_CELL) }

/-!  Concrete inputs used by the witness and counterexample theorems. -/

/-- A concrete stand-in for the shader's `exp`. -/
def expf0 : ℚ → ℚ := fun _ => 1

/-- A concrete glyph UV table. -/
def guv0 : ℕ → ℚ × ℚ × ℚ × ℚ := fun _ => (0, 0, 1, 1)

/-- A concrete instance slot content. -/
def inst0 : InstanceData := ⟨0, 0, 0, 0, (0, 0, 0, 0), 0⟩

/-- Uniforms of the spec's end-to-end scenario: `rows = 10`, `dt = 0.5`. -/
def simE : SimulationUniforms := ⟨1 / 2, 10, 4, 46, 9, 16, 10⟩

/-- Column of the spec's end-to-end scenario: `head = 9.5`, `speed = 2`. -/
def cE : ColumnState := ⟨19 / 2, 2, 5, 12345, 3⟩

/-- Small uniforms for the kernel-level witnesses: two columns. -/
def simF : SimulationUniforms := ⟨1, 3, 2, 4, 1, 1, 2⟩

/-- A column that falls without respawning under `simF`. -/
def cF : ColumnState := ⟨0, 1, 3, 42, 2⟩

/-- A one-row grid: the smallest grid the host can derive. -/
def u3 : SimulationUniforms := ⟨1, 1, 1, 4, 1, 1, 4⟩

/-- A column of the one-row grid about to respawn. -/
def cPre : ColumnState := ⟨1 / 4, 1, 3, 6, 0⟩

/-- A 30-row grid for the single-wrap witness. -/
def simW : SimulationUniforms := ⟨1, 30, 4, 46, 9, 16, 30⟩

/-- A column of the 30-row grid crossing the bottom edge once. -/
def cW : ColumnState := ⟨29, 2, 5, 7, 1⟩

/-- A concrete full buffer state for the kernel-level witnesses. -/
def sA : SimState :=
  ⟨fun _ => 42, fun _ => 0, fun _ => 1, fun _ => 3, fun _ => 1, fun _ => inst0⟩

/-- The `simulation` pass of the `part_013` bootstrap: writes the instance
buffer. -/
def passSim : RenderPassNode := ⟨"simulation", [], ["InstanceBuffer"]⟩

/-- The `draw` pass: reads the instance buffer, writes the scene color. -/
def passDraw : RenderPassNode := ⟨"draw", ["InstanceBuffer"], ["sceneColor"]⟩

/-- The `present` pass: reads the scene color. -/
def passPresent : RenderPassNode := ⟨"present", ["sceneColor"], []⟩

/-- Pass `A` of the double-writer counterexample: writes `X`, reads
nothing. -/
def passA6 : RenderPassNode := ⟨"A", [], ["X"]⟩

/-- Pass `B` of the double-writer counterexample: also writes `X`. -/
def passB6 : RenderPassNode := ⟨"B", [], ["X"]⟩

/-- Pass `P` of the double-writer witness: writes `Y`. -/
def passP6 : RenderPassNode := ⟨"P", [], ["Y"]⟩

/-- Pass `Q` of the double-writer witness: also writes `Y`. -/
def passQ6 : RenderPassNode := ⟨"Q", [], ["Y"]⟩

/-- Pass `A` of the cycle witness: reads `X`, writes `Y`. -/
def passA7 : RenderPassNode := ⟨"A", ["X"], ["Y"]⟩

/-- Pass `B` of the cycle witness: reads `Y`, writes `X`. -/
def passB7 : RenderPassNode := ⟨"B", ["Y"], ["X"]⟩

/-- A live scope tracking one destroyable resource (id 7), as produced by
`trackDestroyable` on a fresh scope. -/
def scope0 : ResourceManager := ⟨[7], [7], false⟩

/-!  Basic lemmas about the PRNG-derived scalar and point updates. -/

theorem u16slice_nonneg (x : ℕ) : 0 ≤ u16slice x := by
  unfold u16slice
  positivity

theorem u16slice_lt_one (x : ℕ) : u16slice x < 1 := by
  unfold u16slice
  rw [div_lt_one (by norm_num)]
  exact_mod_cast Nat.mod_lt x (by norm_num)

theorem approxNormal01_nonneg (s : ℕ) : 0 ≤ approxNormal01 s := by
  unfold approxNormal01
  have h1 := u16slice_nonneg (lcgStep s)
  have h2 := u16slice_nonneg (lcgStep (lcgStep s))
  have h3 := u16slice_nonneg (lcgStep (lcgStep (lcgStep s)))
  have h4 := u16slice_nonneg (lcgStep (lcgStep (lcgStep (lcgStep s))))
  linarith

theorem approxNormal01_lt_one (s : ℕ) : approxNormal01 s < 1 := by
  unfold approxNormal01
  have h1 := u16slice_lt_one (lcgStep s)
  have h2 := u16slice_lt_one (lcgStep (lcgStep s))
  have h3 := u16slice_lt_one (lcgStep (lcgStep (lcgStep s)))
  have h4 := u16slice_lt_one (lcgStep (lcgStep (lcgStep (lcgStep s))))
  linarith

theorem updFn_self {α : Type} (f : ℕ → α) (i : ℕ) : updFn f i (f i) = f := by
  funext j
  unfold updFn
  split
  · rename_i hji
    rw [hji]
  · rfl

theorem updFn_ne {α : Type} (f : ℕ → α) (i : ℕ) (v : α) (j : ℕ)
    (h : j ≠ i) : updFn f i v j = f j := by
  unfold updFn
  exact if_neg h

theorem updFn_at {α : Type} (f : ℕ → α) (i : ℕ) (v : α) :
    updFn f i v i = v := by
  unfold updFn
  exact if_pos rfl

/-- C1: for every column whose advanced head crosses the bottom edge
(`head + speed * dt >= rows`), one simulation tick produces exactly the
respawn state the specification documents: `head` wrapped by one
subtraction of `rows`, the seed advanced by exactly one 32-bit LCG step,
and `length`, `speed`, `energy` given by the documented formulas in the
scalar `r` derived from the new seed, with `r ∈ [0,1)`. -/
theorem spec_c1 (expf : ℚ → ℚ) (sim : SimulationUniforms) (c : ColumnState)
    (h : (sim.rows : ℚ) ≤ c.head + c.speed * sim.dt) :
    stepColumn expf sim c = specRespawnState sim c ∧
      (stepColumn expf sim c).seed = (c.seed * 1664525 + 1013904223) % 2 ^ 32 ∧
      0 ≤ approxNormal01 (lcgStep c.seed) ∧
      approxNormal01 (lcgStep c.seed) < 1 := by
  refine ⟨?_, ?_, approxNormal01_nonneg _, approxNormal01_lt_one _⟩
  · unfold stepColumn
    rw [if_pos h]
    rfl
  · unfold stepColumn
    rw [if_pos h]
    rfl

/-- C1 witness: the spec's end-to-end scenario (`rows = 10`, `head = 9.5`,
`speed = 2`, `dt = 0.5`) crosses the bottom edge and lands on the
documented respawn state. -/
theorem spec_c1_witness :
    ((simE.rows : ℚ) ≤ cE.head + cE.speed * simE.dt) ∧
      (stepColumn expf0 simE cE = specRespawnState simE cE ∧
        (stepColumn expf0 simE cE).seed =
          (cE.seed * 1664525 + 1013904223) % 2 ^ 32 ∧
        0 ≤ approxNormal01 (lcgStep cE.seed) ∧
        approxNormal01 (lcgStep cE.seed) < 1) :=
  ⟨by norm_num [simE, cE], spec_c1 expf0 simE cE (by norm_num [simE, cE])⟩

/-- C2: a tick with `dt ≥ 0` started from a state with
`0 ≤ energy ≤ length * ENERGY_PER_CELL` ends in a state again satisfying
`0 ≤ energy ≤ length * ENERGY_PER_CELL` (with the post-tick `length`):
respawn initialises energy at most `length * ENERGY_PER_CELL` and at least
`ENERGY_BASE_MIN ≥ 0`, and the falling branch clamps the decayed energy
into exactly that range — for every value of the shader's `exp`. -/
theorem spec_c2 (expf : ℚ → ℚ) (sim : SimulationUniforms) (c : ColumnState)
    (hdt : 0 ≤ sim.dt) (hlo : 0 ≤ c.energy)
    (hhi : c.energy ≤ (c.length : ℚ) * ENERGY_PER_CELL) :
    0 ≤ (stepColumn expf sim c).energy ∧
      (stepColumn expf sim c).energy ≤
        ((stepColumn expf sim c).length : ℚ) * ENERGY_PER_CELL := by
  unfold stepColumn
  split
  all_goals rename_i hcond
  · unfold respawnStep
    simp only
    constructor
    · apply le_min
      · have hr := approxNormal01_nonneg (lcgStep c.seed)
        unfold ENERGY_BASE_MIN ENERGY_BASE_MAX
        linarith
      · unfold ENERGY_PER_CELL
        positivity
    · exact min_le_right _ _
  · unfold fallingStep wgslClamp
    simp only
    constructor
    · apply le_min
      · exact le_max_right _ _
      · unfold ENERGY_PER_CELL
        positivity
    · exact min_le_right _ _

/-- C2 witness: a concrete falling column satisfying the invariant before
the tick satisfies it after. -/
theorem spec_c2_witness :
    (0 ≤ simF.dt ∧ 0 ≤ cF.energy ∧
        cF.energy ≤ (cF.length : ℚ) * ENERGY_PER_CELL) ∧
      (0 ≤ (stepColumn expf0 simF cF).energy ∧
        (stepColumn expf0 simF cF).energy ≤
          ((stepColumn expf0 simF cF).length : ℚ) * ENERGY_PER_CELL) :=
  ⟨⟨by norm_num [simF], by norm_num [cF],
      by norm_num [cF, ENERGY_PER_CELL]⟩,
    spec_c2 expf0 simF cF (by norm_num [simF]) (by norm_num [cF])
      (by norm_num [cF, ENERGY_PER_CELL])⟩

/-- C3 counterexample: on a one-row grid (`rows = 1`) the state reached by
one tick of the shader itself (a respawn, so its `speed` is
simulation-assigned) has `head ∈ [0, rows)`; ticking it once more with
`dt = 1 ∈ [0,1]` leaves `head ≈ 6.8 ∉ [0, rows)` — the single subtraction
of `rows` does not suffice, so the claim as stated is false. -/
theorem spec_c3_cex :
    0 ≤ (stepColumn expf0 u3 cPre).head ∧
      (stepColumn expf0 u3 cPre).head < (u3.rows : ℚ) ∧
      0 ≤ u3.dt ∧ u3.dt ≤ 1 ∧
      ¬ (stepColumn expf0 u3 (stepColumn expf0 u3 cPre)).head <
          (u3.rows : ℚ) := by
  have h1 : stepColumn expf0 u3 cPre =
      ⟨1 / 4, 61869 / 8192, 9, 1023891373, 176557 / 32768⟩ := by
    simp only [stepColumn, respawnStep, fallingStep, u3, cPre, expf0,
      approxNormal01, u16slice, lcgStep, LCG_A, LCG_C, U32, LENGTH_MIN,
      LENGTH_RANGE, SPEED_MIN, SPEED_RANGE, ENERGY_BASE_MIN, ENERGY_BASE_MAX,
      ENERGY_PER_CELL, wgslClamp, BASE_HALF_LIFE, MIN_HALF_LIFE,
      ENERGY_SPEED_FACTOR, ENERGY_LENGTH_FACTOR, LN2]
    norm_num [min_def, max_def, ColumnState.mk.injEq]
    simp
    norm_num
  have h2 : stepColumn expf0 u3
      (⟨1 / 4, 61869 / 8192, 9, 1023891373, 176557 / 32768⟩ : ColumnState) =
      ⟨55725 / 8192, 72327 / 8192, 11, 3533853992, 187015 / 32768⟩ := by
    simp only [stepColumn, respawnStep, fallingStep, u3, expf0,
      approxNormal01, u16slice, lcgStep, LCG_A, LCG_C, U32, LENGTH_MIN,
      LENGTH_RANGE, SPEED_MIN, SPEED_RANGE, ENERGY_BASE_MIN, ENERGY_BASE_MAX,
      ENERGY_PER_CELL, wgslClamp, BASE_HALF_LIFE, MIN_HALF_LIFE,
      ENERGY_SPEED_FACTOR, ENERGY_LENGTH_FACTOR, LN2]
    norm_num [min_def, max_def, ColumnState.mk.injEq]
    simp
    norm_num
  rw [h1, h2]
  norm_num [u3]

/-- C3 amended: with the additional single-wrap hypothesis
`head + speed * dt < 2 * rows` (together with `head ∈ [0, rows)`,
`speed ≥ 0`, `dt ≥ 0`), the post-tick head lies in `[0, rows)`.  With
`dt ≤ 1` and the respawn speed range `[2, 18)` this hypothesis holds on
every grid with `rows ≥ 18`, but not on very small grids. -/
theorem spec_c3_amended (expf : ℚ → ℚ) (sim : SimulationUniforms)
    (c : ColumnState) (h0 : 0 ≤ c.head) (h1 : c.head < (sim.rows : ℚ))
    (hsp : 0 ≤ c.speed) (hdt : 0 ≤ sim.dt)
    (hwrap : c.head + c.speed * sim.dt < 2 * (sim.rows : ℚ)) :
    0 ≤ (stepColumn expf sim c).head ∧
      (stepColumn expf sim c).head < (sim.rows : ℚ) := by
  have hmul : 0 ≤ c.speed * sim.dt := mul_nonneg hsp hdt
  unfold stepColumn
  split
  · rename_i hge
    unfold respawnStep
    simp only
    constructor
    · linarith
    · linarith
  · rename_i hlt
    push_neg at hlt
    unfold fallingStep
    simp only
    constructor
    · linarith
    · linarith

/-- C3 witness: a 30-row grid column at `head = 29`, `speed = 2`, `dt = 1`
crosses the edge once and re-enters `[0, 30)`. -/
theorem spec_c3_witness :
    (0 ≤ cW.head ∧ cW.head < (simW.rows : ℚ) ∧ 0 ≤ cW.speed ∧
        0 ≤ simW.dt ∧ cW.head + cW.speed * simW.dt < 2 * (simW.rows : ℚ)) ∧
      (0 ≤ (stepColumn expf0 simW cW).head ∧
        (stepColumn expf0 simW cW).head < (simW.rows : ℚ)) :=
  ⟨⟨by norm_num [cW], by norm_num [cW, simW], by norm_num [cW],
      by norm_num [simW], by norm_num [cW, simW]⟩,
    spec_c3_amended expf0 simW cW (by norm_num [cW])
      (by norm_num [cW, simW]) (by norm_num [cW]) (by norm_num [simW])
      (by norm_num [cW, simW])⟩

/-- C4: a tick in which a column does not respawn
(`head + speed * dt < rows`) leaves the whole `seeds`, `speeds` and
`lengths` buffers unchanged (trail-glyph selection hashes the seed
statelessly), and writes `heads` and `energies` only at the column's own
index. -/
theorem spec_c4 (expf : ℚ → ℚ) (sim : SimulationUniforms)
    (guv : ℕ → ℚ × ℚ × ℚ × ℚ) (s : SimState) (gid : ℕ)
    (hg : gid < sim.cols)
    (hnr : s.heads gid + s.speeds gid * sim.dt < (sim.rows : ℚ)) :
    (threadMain expf sim guv gid s).seeds = s.seeds ∧
      (threadMain expf sim guv gid s).speeds = s.speeds ∧
      (threadMain expf sim guv gid s).lengths = s.lengths ∧
      (∀ j, j ≠ gid →
        (threadMain expf sim guv gid s).heads j = s.heads j ∧
        (threadMain expf sim guv gid s).energies j = s.energies j) := by
  have hif : ¬ sim.cols ≤ gid := not_le.mpr hg
  have hstep : stepColumn expf sim
      ⟨s.heads gid, s.speeds gid, s.lengths gid, s.seeds gid,
        s.energies gid⟩ =
      fallingStep expf sim
        ⟨s.heads gid, s.speeds gid, s.lengths gid, s.seeds gid,
          s.energies gid⟩
        (s.heads gid + s.speeds gid * sim.dt) := by
    unfold stepColumn
    exact if_neg (not_le.mpr hnr)
  unfold threadMain
  rw [if_neg hif]
  simp only [hstep]
  refine ⟨?_, ?_, ?_, fun j hj => ⟨?_, ?_⟩⟩
  · exact updFn_self s.seeds gid
  · exact updFn_self s.speeds gid
  · exact updFn_self s.lengths gid
  · exact updFn_ne s.heads gid _ j hj
  · exact updFn_ne s.energies gid _ j hj

/-- C4 witness: column 0 of a concrete two-column grid falls without
respawning and leaves seeds, speeds, lengths, and the other column's head
and energy untouched. -/
theorem spec_c4_witness :
    (0 < simF.cols ∧
        sA.heads 0 + sA.speeds 0 * simF.dt < (simF.rows : ℚ)) ∧
      ((threadMain expf0 simF guv0 0 sA).seeds = sA.seeds ∧
        (threadMain expf0 simF guv0 0 sA).speeds = sA.speeds ∧
        (threadMain expf0 simF guv0 0 sA).lengths = sA.lengths ∧
        (threadMain expf0 simF guv0 0 sA).heads 1 = sA.heads 1 ∧
        (threadMain expf0 simF guv0 0 sA).energies 1 = sA.energies 1) := by
  have h := spec_c4 expf0 simF guv0 sA 0 (by norm_num [simF])
    (by norm_num [sA, simF])
  exact ⟨⟨by norm_num [simF], by norm_num [sA, simF]⟩, h.1, h.2.1, h.2.2.1,
    (h.2.2.2 1 (by norm_num)).1, (h.2.2.2 1 (by norm_num)).2⟩

theorem emitLoop_ne (em : ℕ → InstanceData) (base n : ℕ)
    (inst : ℕ → InstanceData) (k : ℕ) (h : ∀ t, t < n → k ≠ base + t) :
    emitLoop em base n inst k = inst k := by
  induction n with
  | zero => rfl
  | succ m ih =>
      show updFn (emitLoop em base m inst) (base + m) (em m) k = inst k
      rw [updFn_ne _ _ _ _ (h m (Nat.lt_succ_self m))]
      exact ih (fun t ht => h t (Nat.lt_succ_of_lt ht))

theorem threadMain_oob (expf : ℚ → ℚ) (sim : SimulationUniforms)
    (guv : ℕ → ℚ × ℚ × ℚ × ℚ) (gid : ℕ) (s : SimState)
    (hg : sim.cols ≤ gid) : threadMain expf sim guv gid s = s := by
  unfold threadMain
  exact if_pos hg

theorem threadMain_outside (expf : ℚ → ℚ) (sim : SimulationUniforms)
    (guv : ℕ → ℚ × ℚ × ℚ × ℚ) (gid : ℕ) (s : SimState) :
    (∀ j, sim.cols ≤ j →
        (threadMain expf sim guv gid s).seeds j = s.seeds j ∧
        (threadMain expf sim guv gid s).heads j = s.heads j ∧
        (threadMain expf sim guv gid s).speeds j = s.speeds j ∧
        (threadMain expf sim guv gid s).lengths j = s.lengths j ∧
        (threadMain expf sim guv gid s).energies j = s.energies j) ∧
      (∀ k, sim.cols * sim.maxTrail ≤ k →
        (threadMain expf sim guv gid s).instances k = s.instances k) := by
  by_cases hg : sim.cols ≤ gid
  · rw [threadMain_oob expf sim guv gid s hg]
    exact ⟨fun j _ => ⟨rfl, rfl, rfl, rfl, rfl⟩, fun k _ => rfl⟩
  · push_neg at hg
    unfold threadMain
    rw [if_neg (not_le.mpr hg)]
    constructor
    · intro j hj
      have hne : j ≠ gid := by omega
      exact ⟨updFn_ne _ _ _ j hne, updFn_ne _ _ _ j hne,
        updFn_ne _ _ _ j hne, updFn_ne _ _ _ j hne, updFn_ne _ _ _ j hne⟩
    · intro k hk
      apply emitLoop_ne
      intro t ht
      have ht2 : t < sim.maxTrail := lt_of_lt_of_le ht (min_le_right _ _)
      have h1 : gid * sim.maxTrail + t < (gid + 1) * sim.maxTrail := by
        rw [Nat.succ_mul]
        omega
      have h2 : (gid + 1) * sim.maxTrail ≤ sim.cols * sim.maxTrail :=
        Nat.mul_le_mul_right _ hg
      omega

theorem dispatchThreads_succ (expf : ℚ → ℚ) (sim : SimulationUniforms)
    (guv : ℕ → ℚ × ℚ × ℚ × ℚ) (n : ℕ) (s : SimState) :
    dispatchThreads expf sim guv (n + 1) s =
      threadMain expf sim guv n (dispatchThreads expf sim guv n s) := by
  unfold dispatchThreads
  rw [List.range_succ, List.foldl_append]
  rfl

theorem dispatch_outside (expf : ℚ → ℚ) (sim : SimulationUniforms)
    (guv : ℕ → ℚ × ℚ × ℚ × ℚ) (n : ℕ) (s : SimState) :
    (∀ j, sim.cols ≤ j →
        (dispatchThreads expf sim guv n s).seeds j = s.seeds j ∧
        (dispatchThreads expf sim guv n s).heads j = s.heads j ∧
        (dispatchThreads expf sim guv n s).speeds j = s.speeds j ∧
        (dispatchThreads expf sim guv n s).lengths j = s.lengths j ∧
        (dispatchThreads expf sim guv n s).energies j = s.energies j) ∧
      (∀ k, sim.cols * sim.maxTrail ≤ k →
        (dispatchThreads expf sim guv n s).instances k = s.instances k) := by
  induction n with
  | zero => exact ⟨fun j _ => ⟨rfl, rfl, rfl, rfl, rfl⟩, fun k _ => rfl⟩
  | succ m ih =>
      rw [dispatchThreads_succ]
      have h2 := threadMain_outside expf sim guv m
        (dispatchThreads expf sim guv m s)
      constructor
      · intro j hj
        obtain ⟨a1, a2, a3, a4, a5⟩ := h2.1 j hj
        obtain ⟨b1, b2, b3, b4, b5⟩ := ih.1 j hj
        exact ⟨a1.trans b1, a2.trans b2, a3.trans b3, a4.trans b4,
          a5.trans b5⟩
      · intro k hk
        exact (h2.2 k hk).trans (ih.2 k hk)

theorem dispatch_absorb (expf : ℚ → ℚ) (sim : SimulationUniforms)
    (guv : ℕ → ℚ × ℚ × ℚ × ℚ) (N : ℕ) (s : SimState)
    (h : sim.cols ≤ N) :
    dispatchThreads expf sim guv N s =
      dispatchThreads expf sim guv sim.cols s := by
  induction N, h using Nat.le_induction with
  | base => rfl
  | succ m hm ih =>
      rw [dispatchThreads_succ, ih]
      exact threadMain_oob expf sim guv m _ hm

/-- C10: an invocation whose global index is at least `cols` returns at the
guard without touching any buffer; consequently a dispatch rounded up to
any `N ≥ cols` threads (in particular `64 * ceil(cols/64)`) equals the
dispatch of exactly `cols` threads, and leaves every state-buffer slot of a
column index `≥ cols` and every instance slot `≥ cols * maxTrail`
unchanged. -/
theorem spec_c10 (expf : ℚ → ℚ) (sim : SimulationUniforms)
    (guv : ℕ → ℚ × ℚ × ℚ × ℚ) (s : SimState) (N gid : ℕ)
    (hg : sim.cols ≤ gid) (hN : sim.cols ≤ N) :
    threadMain expf sim guv gid s = s ∧
      dispatchThreads expf sim guv N s =
        dispatchThreads expf sim guv sim.cols s ∧
      (∀ j, sim.cols ≤ j →
        (dispatchThreads expf sim guv N s).seeds j = s.seeds j ∧
        (dispatchThreads expf sim guv N s).heads j = s.heads j ∧
        (dispatchThreads expf sim guv N s).speeds j = s.speeds j ∧
        (dispatchThreads expf sim guv N s).lengths j = s.lengths j ∧
        (dispatchThreads expf sim guv N s).energies j = s.energies j) ∧
      (∀ k, sim.cols * sim.maxTrail ≤ k →
        (dispatchThreads expf sim guv N s).instances k = s.instances k) :=
  ⟨threadMain_oob expf sim guv gid s hg,
    dispatch_absorb expf sim guv N s hN,
    (dispatch_outside expf sim guv N s).1,
    (dispatch_outside expf sim guv N s).2⟩

/-- C10 witness: on the two-column grid, thread 5 is a no-op, a 64-thread
round-up dispatch equals the two-thread dispatch, and out-of-range slots
stay untouched. -/
theorem spec_c10_witness :
    (simF.cols ≤ 5 ∧ simF.cols ≤ 64) ∧
      (threadMain expf0 simF guv0 5 sA = sA ∧
        dispatchThreads expf0 simF guv0 64 sA =
          dispatchThreads expf0 simF guv0 simF.cols sA ∧
        (dispatchThreads expf0 simF guv0 64 sA).heads 7 = sA.heads 7 ∧
        (dispatchThreads expf0 simF guv0 64 sA).instances 9 =
          sA.instances 9) := by
  have h := spec_c10 expf0 simF guv0 sA 64 5 (by norm_num [simF])
    (by norm_num [simF])
  exact ⟨⟨by norm_num [simF], by norm_num [simF]⟩, h.1, h.2.1,
    (h.2.2.1 7 (by norm_num [simF])).2.1, h.2.2.2 9 (by norm_num [simF])⟩

/-- C5: for the three-pass graph `Sim (writes I)`, `Draw (reads I, writes
C)`, `Present (reads C)` of the bootstrap, `compile()` produces exactly the
execution order `[Sim, Draw, Present]`. -/
theorem spec_c5 :
    compileRenderGraph [passSim, passDraw, passPresent] =
      Except.ok [passSim, passDraw, passPresent] := by rfl

/-- C6 counterexample: two passes that both write `X` and read nothing do
NOT compile to a total order — the write-write hazard is inserted in both
directions, the two passes form a two-cycle, and `compile()` throws the
cycle error instead of succeeding. -/
theorem spec_c6_cex :
    compileRenderGraph [passA6, passB6] =
      Except.error "RG: cyclic dependency detected" := by rfl

theorem edgeb_lt (passes : List RenderPassNode) (u v : ℕ)
    (h : edgeb passes u v = true) :
    u < passes.length ∧ v < passes.length ∧ u ≠ v := by
  unfold edgeb at h
  simp only [Bool.and_eq_true, decide_eq_true_eq] at h
  exact ⟨h.1.1.1, h.1.1.2, h.1.2⟩

theorem inDeg0_pos (passes : List RenderPassNode) (u v : ℕ)
    (h : edgeb passes u v = true) : 0 < inDeg0 passes v := by
  unfold inDeg0
  have hu : u ∈ (List.range passes.length).filter
      (fun i => edgeb passes i v) := by
    rw [List.mem_filter, List.mem_range]
    exact ⟨(edgeb_lt passes u v h).1, h⟩
  have := List.length_pos.mpr (List.ne_nil_of_mem hu)
  exact_mod_cast this

theorem kahn_fold (l : List ℕ) (hl : l.Nodup) (f : ℕ → ℤ) (q : List ℕ) :
    l.foldl kahnVisit (f, q) =
      ((fun j => if j ∈ l then f j - 1 else f j),
        q ++ l.filter (fun j => f j = 1)) := by
  induction l generalizing f q with
  | nil =>
      simp only [List.foldl_nil, List.filter_nil, List.append_nil]
      refine Prod.ext ?_ rfl
      funext j
      simp
  | cons x xs ih =>
      have hx : x ∉ xs := (List.nodup_cons.mp hl).1
      have hxs : xs.Nodup := (List.nodup_cons.mp hl).2
      rw [List.foldl_cons]
      rw [show kahnVisit (f, q) x =
        (updFn f x (f x - 1), if f x - 1 = 0 then q ++ [x] else q) from rfl]
      rw [ih hxs]
      have hfil : xs.filter (fun j => updFn f x (f x - 1) j = 1) =
          xs.filter (fun j => f j = 1) := by
        apply List.filter_congr
        intro j hj
        have : j ≠ x := fun hjx => hx (hjx ▸ hj)
        rw [updFn_ne f x (f x - 1) j this]
      refine Prod.ext ?_ ?_
      · funext j
        dsimp only
        by_cases hjx : j = x
        · subst hjx
          rw [if_neg hx, updFn_at, if_pos (List.mem_cons_self _ _)]
        · rw [updFn_ne f x (f x - 1) j hjx]
          by_cases hjm : j ∈ xs
          · rw [if_pos hjm, if_pos (List.mem_cons_of_mem x hjm)]
          · rw [if_neg hjm, if_neg (by simp [hjx, hjm])]
      · dsimp only
        rw [hfil]
        by_cases hfx : f x = 1
        · rw [if_pos (by omega : f x - 1 = 0),
            List.filter_cons_of_pos (by simpa using hfx), List.append_assoc]
          rfl
        · rw [if_neg (by omega : ¬ f x - 1 = 0),
            List.filter_cons_of_neg (by simpa using hfx)]

theorem nodup_sub_two (l m : List ℕ) (hl : l.Nodup) (hsub : ∀ x ∈ l, x ∈ m)
    (u p : ℕ) (hu : u ∈ m) (hp : p ∈ m) (hup : u ≠ p) (hul : u ∉ l)
    (hpl : p ∉ l) : l.length + 2 ≤ m.length := by
  classical
  have h1 : l.toFinset ⊆ (m.toFinset.erase u).erase p := by
    intro x hx
    rw [List.mem_toFinset] at hx
    refine Finset.mem_erase.mpr ⟨?_, Finset.mem_erase.mpr ⟨?_, ?_⟩⟩
    · rintro rfl
      exact hpl hx
    · rintro rfl
      exact hul hx
    · exact List.mem_toFinset.mpr (hsub x hx)
  have hcard := Finset.card_le_card h1
  rw [List.toFinset_card_of_nodup hl] at hcard
  have hpu : p ∈ m.toFinset.erase u :=
    Finset.mem_erase.mpr ⟨fun h => hup h.symm, List.mem_toFinset.mpr hp⟩
  have h2 : ((m.toFinset.erase u).erase p).card =
      m.toFinset.card - 1 - 1 := by
    rw [Finset.card_erase_of_mem hpu,
      Finset.card_erase_of_mem (List.mem_toFinset.mpr hu)]
  have h3 : 2 ≤ m.toFinset.card := by
    have hss : ({u, p} : Finset ℕ) ⊆ m.toFinset := by
      intro x hx
      rcases Finset.mem_insert.mp hx with rfl | hx
      · exact List.mem_toFinset.mpr hu
      · rw [Finset.mem_singleton] at hx
        subst hx
        exact List.mem_toFinset.mpr hp
    have hc2 : ({u, p} : Finset ℕ).card = 2 := by
      rw [Finset.card_insert_of_not_mem (by simpa using hup),
        Finset.card_singleton]
    calc 2 = ({u, p} : Finset ℕ).card := hc2.symm
      _ ≤ m.toFinset.card := Finset.card_le_card hss
  have h4 : m.toFinset.card ≤ m.length := m.toFinset_card_le
  omega

theorem mem_of_nodup_length (res : List ℕ) (n : ℕ) (hnd : res.Nodup)
    (hlt : ∀ x ∈ res, x < n) (hlen : res.length = n) (v : ℕ) (hv : v < n) :
    v ∈ res := by
  classical
  have hsub : res.toFinset ⊆ Finset.range n := by
    intro x hx
    rw [Finset.mem_range]
    exact hlt x (List.mem_toFinset.mp hx)
  have heq : Finset.range n = res.toFinset := by
    apply (Finset.eq_of_subset_of_card_le hsub ?_).symm
    rw [List.toFinset_card_of_nodup hnd, hlen, Finset.card_range]
  rw [← List.mem_toFinset, ← heq, Finset.mem_range]
  exact hv

theorem adjOf_nodup (passes : List RenderPassNode) (p : ℕ) :
    (adjOf passes p).Nodup := (List.nodup_range _).filter _

theorem kahnInv_init (passes : List RenderPassNode) (S : List ℕ)
    (hS : ∀ v ∈ S, ∃ u ∈ S, edgeb passes u v = true) :
    KahnInv passes S (inDeg0 passes)
      ((List.range passes.length).filter (fun i => inDeg0 passes i = 0))
      [] := by
  refine ⟨?_, ?_, ?_, ?_, ?_⟩
  · simpa using (List.nodup_range passes.length).filter _
  · intro x hx
    simp only [List.nil_append] at hx
    exact List.mem_range.mp (List.mem_filter.mp hx).1
  · intro j hj
    simp
  · intro x hx
    simp only [List.nil_append] at hx
    have := (List.mem_filter.mp hx).2
    simp only [decide_eq_true_eq] at this
    omega
  · intro v hv
    simp only [List.nil_append]
    intro hmem
    obtain ⟨u, huS, hedge⟩ := hS v hv
    have hpos := inDeg0_pos passes u v hedge
    have := (List.mem_filter.mp hmem).2
    simp only [decide_eq_true_eq] at this
    omega

theorem kahnInv_step (passes : List RenderPassNode) (S : List ℕ)
    (hS : ∀ v ∈ S, ∃ u ∈ S, edgeb passes u v = true)
    (inDeg : ℕ → ℤ) (p : ℕ) (rest ordered : List ℕ)
    (hInv : KahnInv passes S inDeg (p :: rest) ordered) :
    KahnInv passes S
      (fun j => if j ∈ adjOf passes p then inDeg j - 1 else inDeg j)
      (rest ++ (adjOf passes p).filter (fun j => inDeg j = 1))
      (ordered ++ [p]) := by
  obtain ⟨ha, hb, hc, hd, he⟩ := hInv
  have hmemA : ∀ j, j ∈ adjOf passes p ↔
      (j < passes.length ∧ edgeb passes p j = true) := by
    intro j
    unfold adjOf
    rw [List.mem_filter, List.mem_range]
  have hZmem : ∀ j,
      j ∈ (adjOf passes p).filter (fun j => inDeg j = 1) ↔
        (j ∈ adjOf passes p ∧ inDeg j = 1) := by
    intro j
    rw [List.mem_filter]
    simp
  have hshuffle : ∀ x : ℕ,
      x ∈ (ordered ++ [p]) ++ rest ↔ x ∈ ordered ++ p :: rest := by
    intro x
    simp only [List.mem_append, List.mem_cons, List.mem_singleton]
    tauto
  have hordnd : ordered.Nodup := (List.nodup_append.mp ha).1
  have hpnotord : p ∉ ordered := by
    intro hmem
    exact (List.nodup_append.mp ha).2.2 hmem (List.mem_cons_self p rest)
  have ha2 : ((ordered ++ [p]) ++ rest).Nodup := by
    rw [List.append_assoc]
    simpa using ha
  refine ⟨?_, ?_, ?_, ?_, ?_⟩
  · rw [← List.append_assoc, List.nodup_append]
    refine ⟨ha2, (adjOf_nodup passes p).filter _, ?_⟩
    intro x hx hxZ
    have hx2 := hd x ((hshuffle x).mp hx)
    have := ((hZmem x).mp hxZ).2
    omega
  · intro x hx
    rw [← List.append_assoc] at hx
    rcases List.mem_append.mp hx with hx1 | hxZ
    · exact hb x ((hshuffle x).mp hx1)
    · exact ((hmemA x).mp ((hZmem x).mp hxZ).1).1
  · intro j hj
    dsimp only
    have hfil : (ordered ++ [p]).filter (fun i => edgeb passes i j) =
        ordered.filter (fun i => edgeb passes i j) ++
          (bif edgeb passes p j then [p] else []) := by
      rw [List.filter_append, List.filter_singleton]
    by_cases hjA : j ∈ adjOf passes p
    · have hE : edgeb passes p j = true := ((hmemA j).mp hjA).2
      rw [if_pos hjA, hc j hj, hfil, List.length_append, hE]
      simp
      omega
    · have hE : edgeb passes p j = false := by
        revert hjA
        cases hEb : edgeb passes p j
        · intro _
          rfl
        · intro hjA
          exact absurd ((hmemA j).mpr ⟨hj, hEb⟩) hjA
      rw [if_neg hjA, hc j hj, hfil, List.length_append, hE]
      simp
  · intro x hx
    dsimp only
    rw [← List.append_assoc] at hx
    rcases List.mem_append.mp hx with hx1 | hxZ
    · have hx2 := hd x ((hshuffle x).mp hx1)
      split
      · omega
      · omega
    · obtain ⟨hxA, hxd⟩ := (hZmem x).mp hxZ
      rw [if_pos hxA]
      omega
  · intro v hv
    rw [← List.append_assoc]
    intro hmem
    rcases List.mem_append.mp hmem with hx1 | hxZ
    · exact he v hv ((hshuffle v).mp hx1)
    · obtain ⟨hvA, hvd⟩ := (hZmem v).mp hxZ
      obtain ⟨hvlt, hEpv⟩ := (hmemA v).mp hvA
      obtain ⟨u, huS, hedge⟩ := hS v hv
      have hune := he u huS
      have hulat := edgeb_lt passes u v hedge
      have hup : u ≠ p := by
        rintro rfl
        exact hune (List.mem_append_right _ (List.mem_cons_self u rest))
      have hplt : p < passes.length :=
        hb p (List.mem_append_right _ (List.mem_cons_self p rest))
      have hul : u ∉ ordered.filter (fun i => edgeb passes i v) := by
        intro hmem2
        exact hune
          (List.mem_append_left _ (List.mem_of_mem_filter hmem2))
      have hpl : p ∉ ordered.filter (fun i => edgeb passes i v) := by
        intro hmem2
        exact hpnotord (List.mem_of_mem_filter hmem2)
      have hsubm : ∀ x ∈ ordered.filter (fun i => edgeb passes i v),
          x ∈ (List.range passes.length).filter
            (fun i => edgeb passes i v) := by
        intro x hxm
        obtain ⟨hxo, hxe⟩ := List.mem_filter.mp hxm
        rw [List.mem_filter, List.mem_range]
        exact ⟨hb x (List.mem_append_left _ hxo), hxe⟩
      have hum : u ∈ (List.range passes.length).filter
          (fun i => edgeb passes i v) := by
        rw [List.mem_filter, List.mem_range]
        exact ⟨hulat.1, hedge⟩
      have hpm : p ∈ (List.range passes.length).filter
          (fun i => edgeb passes i v) := by
        rw [List.mem_filter, List.mem_range]
        exact ⟨hplt, hEpv⟩
      have hcount := nodup_sub_two _ _ (hordnd.filter _) hsubm u p hum hpm
        hup hul hpl
      have hcv := hc v hvlt
      unfold inDeg0 at hcv
      omega

theorem kahnLoop_inv (passes : List RenderPassNode) (S : List ℕ)
    (hS : ∀ v ∈ S, ∃ u ∈ S, edgeb passes u v = true) :
    ∀ (fuel : ℕ) (inDeg : ℕ → ℤ) (queue ordered : List ℕ),
      KahnInv passes S inDeg queue ordered →
      (kahnLoop (adjOf passes) fuel inDeg queue ordered).Nodup ∧
        (∀ x ∈ kahnLoop (adjOf passes) fuel inDeg queue ordered,
          x < passes.length) ∧
        (∀ v ∈ S, v ∉ kahnLoop (adjOf passes) fuel inDeg queue ordered) := by
  intro fuel
  induction fuel with
  | zero =>
      intro inDeg queue ordered hInv
      obtain ⟨ha, hb, _, _, he⟩ := hInv
      refine ⟨(List.nodup_append.mp ha).1, ?_, ?_⟩
      · intro x hx
        exact hb x (List.mem_append_left _ hx)
      · intro v hv hmem
        exact he v hv (List.mem_append_left _ hmem)
  | succ f ih =>
      intro inDeg queue ordered hInv
      cases queue with
      | nil =>
          obtain ⟨ha, hb, _, _, he⟩ := hInv
          refine ⟨(List.nodup_append.mp ha).1, ?_, ?_⟩
          · intro x hx
            exact hb x (List.mem_append_left _ hx)
          · intro v hv hmem
            exact he v hv (List.mem_append_left _ hmem)
      | cons p rest =>
          have heq : kahnLoop (adjOf passes) (f + 1) inDeg (p :: rest)
              ordered =
              kahnLoop (adjOf passes) f
                (fun j => if j ∈ adjOf passes p then inDeg j - 1
                  else inDeg j)
                (rest ++ (adjOf passes p).filter (fun j => inDeg j = 1))
                (ordered ++ [p]) := by
            show kahnLoop (adjOf passes) f
                ((adjOf passes p).foldl kahnVisit (inDeg, rest)).1
                ((adjOf passes p).foldl kahnVisit (inDeg, rest)).2
                (ordered ++ [p]) = _
            rw [kahn_fold (adjOf passes p) (adjOf_nodup passes p) inDeg rest]
          rw [heq]
          exact ih _ _ _ (kahnInv_step passes S hS inDeg p rest ordered hInv)

theorem compile_cyclic_error (passes : List RenderPassNode) (S : List ℕ)
    (h : CycleSet passes S) :
    compileRenderGraph passes =
      Except.error "RG: cyclic dependency detected" := by
  obtain ⟨hne, hS⟩ := h
  obtain ⟨v0, hv0⟩ := List.exists_mem_of_ne_nil S hne
  obtain ⟨u0, hu0, hedge⟩ := hS v0 hv0
  have hv0lt : v0 < passes.length := (edgeb_lt passes u0 v0 hedge).2.1
  have hres := kahnLoop_inv passes S hS passes.length (inDeg0 passes)
    ((List.range passes.length).filter (fun i => inDeg0 passes i = 0)) []
    (kahnInv_init passes S hS)
  obtain ⟨hnd, hlt, hnotS⟩ := hres
  simp only [compileRenderGraph]
  split
  · rename_i hlen
    exact absurd (mem_of_nodup_length _ _ hnd hlt hlen v0 hv0lt)
      (hnotS v0 hv0)
  · rfl

/-- C7: for every pass set whose read/write declarations form a dependency
cycle — witnessed by a non-empty set `S` of pass indices each the target of
a hazard edge from another member, which is exactly the vertex set of any
directed cycle (e.g. `A reads X writes Y`, `B reads Y writes X`) —
`compile()` raises the cycle error: the embedding is a total function, so
it terminates, and it returns the error rather than a truncated pass
list. -/
theorem spec_c7 (passes : List RenderPassNode) (S : List ℕ)
    (h : CycleSet passes S) :
    compileRenderGraph passes =
      Except.error "RG: cyclic dependency detected" :=
  compile_cyclic_error passes S h

/-- C7 witness: the two-pass cycle `A reads X writes Y`, `B reads Y writes
X` is a cycle set and compiles to the cycle error. -/
theorem spec_c7_witness :
    CycleSet [passA7, passB7] [0, 1] ∧
      compileRenderGraph [passA7, passB7] =
        Except.error "RG: cyclic dependency detected" :=
  ⟨⟨by decide, by decide⟩,
    spec_c7 [passA7, passB7] [0, 1] ⟨by decide, by decide⟩⟩

/-- C6 amended: two passes that both write a common resource `X` (and read
nothing of each other) do not compile; the write-write hazard is inserted
in both directions, so the pair is a two-cycle and `compile()` throws
`RG: cyclic dependency detected` instead of returning a total order. -/
theorem spec_c6_amended (a b : RenderPassNode)
    (h : ∃ x, x ∈ a.writes ∧ x ∈ b.writes) :
    compileRenderGraph [a, b] =
      Except.error "RG: cyclic dependency detected" := by
  obtain ⟨x, hxa, hxb⟩ := h
  have hab : hazardb a b = true := by
    unfold hazardb
    rw [Bool.or_eq_true]
    refine Or.inr ?_
    rw [List.any_eq_true]
    exact ⟨x, hxa, by simpa using hxb⟩
  have hba : hazardb b a = true := by
    unfold hazardb
    rw [Bool.or_eq_true]
    refine Or.inr ?_
    rw [List.any_eq_true]
    exact ⟨x, hxb, by simpa using hxa⟩
  have e01 : edgeb [a, b] 0 1 = true := by
    unfold edgeb
    simp [List.getD_cons_zero, List.getD_cons_succ, hab]
  have e10 : edgeb [a, b] 1 0 = true := by
    unfold edgeb
    simp [List.getD_cons_zero, List.getD_cons_succ, hba]
  apply compile_cyclic_error [a, b] [0, 1]
  refine ⟨by decide, ?_⟩
  intro v hv
  rcases List.mem_cons.mp hv with rfl | hv2
  · exact ⟨1, by simp, e10⟩
  · rcases List.mem_cons.mp hv2 with rfl | hv3
    · exact ⟨0, by simp, e01⟩
    · cases hv3

/-- C6 witness: passes `P` and `Q`, both writing `Y`, hit the cycle
error. -/
theorem spec_c6_witness :
    (∃ x, x ∈ passP6.writes ∧ x ∈ passQ6.writes) ∧
      compileRenderGraph [passP6, passQ6] =
        Except.error "RG: cyclic dependency detected" :=
  ⟨⟨"Y", by simp [passP6], by simp [passQ6]⟩,
    spec_c6_amended passP6 passQ6
      ⟨"Y", by simp [passP6], by simp [passQ6]⟩⟩

/-- C8 counterexample: a scope holding one tracked destroyable, after
`destroyAll()`, rejects further `trackDestroyable` calls — `assertAlive()`
throws because the `destroyed` flag is set and never cleared, so the claim
that the handle can be reused afterward is false. -/
theorem spec_c8_cex :
    trackDestroyable newResourceManager 7 = Except.ok (scope0, 7) ∧
      trackDestroyable (destroyAll scope0).2 8 =
        Except.error deadScopeMsg := by
  exact ⟨rfl, rfl⟩

/-- C8 amended: `destroyAll()` on a live scope releases exactly the
tracked destroyables (in order), clears both tracking collections and
marks the scope destroyed; a second `destroyAll()` is a no-op, but the
handle is not reusable — every subsequent `trackDestroyable` throws the
`assertAlive` error. -/
theorem spec_c8_amended (m : ResourceManager) (h : m.destroyed = false) :
    (destroyAll m).1 = m.destroyables ∧
      (destroyAll m).2.destroyables = [] ∧
      (destroyAll m).2.tracked = [] ∧
      (destroyAll m).2.destroyed = true ∧
      (∀ r, trackDestroyable (destroyAll m).2 r =
        Except.error deadScopeMsg) ∧
      destroyAll (destroyAll m).2 = ([], (destroyAll m).2) := by
  have hd : destroyAll m = (m.destroyables, ⟨[], [], true⟩) := by
    unfold destroyAll
    rw [h]
    rfl
  rw [hd]
  exact ⟨rfl, rfl, rfl, rfl, fun r => rfl, rfl⟩

/-- C8 witness: the concrete one-resource scope is live, and destroying it
behaves as the amended claim states. -/
theorem spec_c8_witness :
    scope0.destroyed = false ∧
      ((destroyAll scope0).1 = scope0.destroyables ∧
        (destroyAll scope0).2.destroyables = [] ∧
        (destroyAll scope0).2.tracked = [] ∧
        (destroyAll scope0).2.destroyed = true ∧
        (∀ r, trackDestroyable (destroyAll scope0).2 r =
          Except.error deadScopeMsg) ∧
        destroyAll (destroyAll scope0).2 = ([], (destroyAll scope0).2)) :=
  ⟨rfl, spec_c8_amended scope0 rfl⟩

/-- `floor (sqrt 5) = 2`. -/
theorem sqrt_five : Nat.sqrt 5 = 2 :=
  (Nat.eq_sqrt.mpr (by norm_num)).symm

/-- C9 counterexample: for a 5-glyph alphabet with no explicit `cols`
option, the `resources.ts` atlas builder packs `floor(sqrt 5) = 2` columns,
not the claimed `ceil(sqrt 5) = 3`. -/
theorem spec_c9_cex :
    glyphsPerRowResources none 5 = 2 ∧ ceilSqrt 5 = 3 ∧
      glyphsPerRowResources none 5 ≠ ceilSqrt 5 := by
  have h2 : glyphsPerRowResources none 5 = 2 := sqrt_five
  have h3 : ceilSqrt 5 = 3 := by
    unfold ceilSqrt
    rw [sqrt_five]
    norm_num
  refine ⟨h2, h3, ?_⟩
  rw [h2, h3]
  norm_num

/-- C9 amended: with no explicit column-count option the `part_012`
variant of `createGlyphAtlas` packs `ceil(sqrt n)` columns (the least `k`
with `n ≤ k * k`), but the `src/engine/render/resources.ts` builder packs
`floor(sqrt n)` columns instead; the two agree exactly on perfect
squares. -/
theorem spec_c9_amended (n : ℕ) :
    colsPart012 none n = ceilSqrt n ∧
      glyphsPerRowResources none n = Nat.sqrt n ∧
      n ≤ ceilSqrt n * ceilSqrt n ∧
      (∀ k, n ≤ k * k → ceilSqrt n ≤ k) ∧
      Nat.sqrt n * Nat.sqrt n ≤ n ∧
      n < (Nat.sqrt n + 1) * (Nat.sqrt n + 1) := by
  refine ⟨rfl, rfl, ?_, ?_, Nat.sqrt_le n, Nat.lt_succ_sqrt n⟩
  · unfold ceilSqrt
    split
    · rename_i hsq
      omega
    · have := Nat.lt_succ_sqrt n
      have hle : n ≤ (Nat.sqrt n + 1) * (Nat.sqrt n + 1) := le_of_lt this
      simpa using hle
  · intro k hk
    have hbase : Nat.sqrt n ≤ k := by
      have h1 := Nat.sqrt_le_sqrt hk
      rwa [Nat.sqrt_eq] at h1
    unfold ceilSqrt
    split
    · exact hbase
    · rename_i hne
      by_contra hcon
      push_neg at hcon
      have hkeq : k = Nat.sqrt n := by omega
      subst hkeq
      have h2 := Nat.sqrt_le n
      exact hne (by omega)

/-- C9 witness: the amended claim instantiated at the 5-glyph alphabet. -/
theorem spec_c9_witness :
    colsPart012 none 5 = ceilSqrt 5 ∧
      glyphsPerRowResources none 5 = Nat.sqrt 5 ∧
      5 ≤ ceilSqrt 5 * ceilSqrt 5 ∧ ceilSqrt 5 ≤ 3 ∧
      Nat.sqrt 5 * Nat.sqrt 5 ≤ 5 ∧
      5 < (Nat.sqrt 5 + 1) * (Nat.sqrt 5 + 1) :=
  ⟨(spec_c9_amended 5).1, (spec_c9_amended 5).2.1,
    (spec_c9_amended 5).2.2.1, (spec_c9_amended 5).2.2.2.1 3 (by decide),
    (spec_c9_amended 5).2.2.2.2.1, (spec_c9_amended 5).2.2.2.2.2⟩

end MatrixRain
